import Mathlib

/-!
Verification development for the Robot Framework library finder
(`tools/finder.py`).  The Python module is shallowly embedded: filesystem
paths become lists of path components, the directory tree visible to the
finder becomes an inductive tree of entries, and the external
`LibraryDocumentation` introspection facility becomes an oracle function
returning either a keyword-presence flag or a `DataError`.
-/

namespace LibraryFinder

/-- A filesystem path, as its sequence of components (pathlib `Path.parts`). -/
abbrev Path := List String

/-- `Path.name` of pathlib: the final component (empty for an empty path). -/
def pname (p : Path) : String := p.getLastD ""

/-- `str(Path)` for a relative POSIX path: components joined by slashes. -/
def pathStr (p : Path) : String := String.intercalate "/" p

/-- pathlib `Path.suffix`: the extension starting at the last dot of the final
component, empty when the last dot is the first character (hidden files) or
the last character, or when there is no dot. -/
def suffix (name : String) : String :=
  let r := name.data.reverse
  let afterR := r.takeWhile (fun c => c != '.')
  match afterR, r.dropWhile (fun c => c != '.') with
  | _ :: _, '.' :: _ :: _ => String.mk ('.' :: afterR.reverse)
  | _, _ => ""

/-- `BLACKLIST = ("__pycache__",)` -/
def BLACKLIST : List String := ["__pycache__"]

/-- `INIT_FILES = ("__init__.robot", "__init__.txt")` -/
def INIT_FILES : List String := ["__init__.robot", "__init__.txt"]

/-- `EXTENSIONS = (".robot", ".resource", ".txt")` -/
def EXTENSIONS : List String := [".robot", ".resource", ".txt"]

/-- ASCII whitespace recognized by the regex class backslash-s. -/
def isWs (c : Char) : Bool :=
  c = ' ' || c = '\t' || c = '\n' || c = '\x0d' || c = '\x0b' || c = '\x0c'

/-- Case-insensitive literal-prefix test (model of `re.IGNORECASE` literal
matching over ASCII letters). -/
def startsWithCI : List Char → List Char → Bool
  | [], _ => true
  | _ :: _, [] => false
  | a :: as, b :: bs => a.toLower = b.toLower && startsWithCI as bs

/-- Does the header regex match at this position?  Both patterns used by
`is_resource_file` have shape `\*+\s*LIT` with `LIT` a case-insensitive
literal alternative, so a match at a position means: one or more stars,
then any whitespace, then one of the literals. -/
def matchHeaderAt (lits : List (List Char)) (cs : List Char) : Bool :=
  match cs with
  | '*' :: rest =>
      let rest := (rest.dropWhile (fun c => c = '*')).dropWhile isWs
      lits.any (fun l => startsWithCI l rest)
  | _ => false

/-- Try the header match at every position that follows a newline. -/
def searchAux (lits : List (List Char)) : List Char → Bool
  | [] => false
  | c :: rest => (c = '\n' && matchHeaderAt lits rest) || searchAux lits rest

/-- `re.search(pattern, data, re.MULTILINE | re.IGNORECASE)` for the two
header patterns: try the start of the string and the start of every
subsequent line. -/
def searchHeader (lits : List (List Char)) (cs : List Char) : Bool :=
  matchHeaderAt lits cs || searchAux lits cs

/-- Literal alternatives of `^\*+\s*((?:User )?Keywords?)` (the optional
trailing `s` never matters for `re.search`). -/
def kwLits : List (List Char) := ["keyword".data, "user keyword".data]

/-- Literal alternatives of `^\*+\s*(Test Cases?|Tasks?)`. -/
def taskLits : List (List Char) := ["test case".data, "task".data]

/-- Is `b` a UTF-8 continuation byte? -/
def isCont (b : Nat) : Bool := 0x80 ≤ b && b ≤ 0xbf

/-- Decoding engine.  The `Nat` is a step bound; every step consumes at least
one byte, so any bound of at least the byte-list length gives the untruncated
decoding.  Bytes that do not begin a valid UTF-8 sequence are dropped and
decoding continues. -/
def decodeAux : Nat → List Nat → List Char
  | 0, _ => []
  | _ + 1, [] => []
  | fuel + 1, b :: rest =>
    if b < 0x80 then Char.ofNat b :: decodeAux fuel rest
    else if 0xc2 ≤ b && b ≤ 0xdf then
      match rest with
      | b2 :: rest2 =>
        if isCont b2 then Char.ofNat ((b - 0xc0) * 64 + (b2 - 0x80)) :: decodeAux fuel rest2
        else decodeAux fuel rest
      | [] => []
    else if 0xe0 ≤ b && b ≤ 0xef then
      match rest with
      | b2 :: b3 :: rest3 =>
        if (if b = 0xe0 then 0xa0 ≤ b2 && b2 ≤ 0xbf
            else if b = 0xed then 0x80 ≤ b2 && b2 ≤ 0x9f
            else isCont b2) && isCont b3 then
          Char.ofNat ((b - 0xe0) * 4096 + (b2 - 0x80) * 64 + (b3 - 0x80)) ::
            decodeAux fuel rest3
        else decodeAux fuel rest
      | _ => []
    else if 0xf0 ≤ b && b ≤ 0xf4 then
      match rest with
      | b2 :: b3 :: b4 :: rest4 =>
        if (if b = 0xf0 then 0x90 ≤ b2 && b2 ≤ 0xbf
            else if b = 0xf4 then 0x80 ≤ b2 && b2 ≤ 0x8f
            else isCont b2) && isCont b3 && isCont b4 then
          Char.ofNat ((b - 0xf0) * 262144 + (b2 - 0x80) * 4096 + (b3 - 0x80) * 64 + (b4 - 0x80)) ::
            decodeAux fuel rest4
        else decodeAux fuel rest
      | _ => []
    else decodeAux fuel rest

/-- UTF-8 decoding with `errors="ignore"` (Python's permissive decoder for
`open(..., encoding="utf-8", errors="ignore")`).  Total: never fails. -/
def decodeUtf8Ignore (bs : List Nat) : List Char := decodeAux bs.length bs

/-- Universal-newline translation done by text-mode `open`: CRLF and lone CR
both become LF. -/
def translateNewlines : List Char → List Char
  | [] => []
  | '\x0d' :: '\n' :: rest => '\n' :: translateNewlines rest
  | '\x0d' :: rest => '\n' :: translateNewlines rest
  | c :: rest => c :: translateNewlines rest

/-- `fd.read()` of the opened file: permissive UTF-8 decode plus universal
newlines. -/
def readText (bytes : List Nat) : List Char :=
  translateNewlines (decodeUtf8Ignore bytes)

/-- The body of `is_resource_file` after the file is opened: the keyword
header must match and the test/task header must not. -/
def scanContent (bytes : List Nat) : Bool :=
  let data := readText bytes
  !(searchHeader taskLits data) && searchHeader kwLits data

/-- A byte string read at a concrete ASCII content (helper for examples). -/
def strBytes (s : String) : List Nat := s.data.map Char.toNat

mutual
/-- A filesystem entry as the finder can observe it: a regular file with its
byte content, or a directory with its named children. -/
inductive Entry : Type where
  | file : List Nat → Entry
  | dir : Children → Entry
/-- Children of a directory, in `iterdir` order. -/
inductive Children : Type where
  | nil : Children
  | cons : String → Entry → Children → Children
end

/-- `(path / "__init__.py").is_file()`. -/
def Children.hasInitPy : Children → Bool
  | .nil => false
  | .cons n e rest =>
    (n = "__init__.py" && (match e with | .file _ => true | .dir _ => false)) || rest.hasInitPy

/-- The children of a directory at `p` as queue items (`path.iterdir()`). -/
def childItems (p : Path) : Children → List (Path × Entry)
  | .nil => []
  | .cons n e rest => (p ++ [n], e) :: childItems p rest

mutual
/-- Every path strictly beneath this entry (`path.glob("**/*")`: files and
directories alike, recursively). -/
def descendants (p : Path) : Entry → List Path
  | .file _ => []
  | .dir cs => descList p cs
def descList (p : Path) : Children → List Path
  | .nil => []
  | .cons n e rest => (p ++ [n]) :: (descendants (p ++ [n]) e ++ descList p rest)
end

/-- The external `LibraryDocumentation` collaborator: given a path, either a
raised `DataError` (`.error ()`) or whether `.keywords` is non-empty
(`has_keywords`). -/
abbrev Oracle := Path → Except Unit Bool

/-- `should_ignore`: exact membership in the ignore list, or bare name in the
blacklist. -/
def should_ignore (ignore : List Path) (p : Path) : Bool :=
  ignore.contains p || BLACKLIST.contains (pname p)

/-- `is_module_library`: the directory holds an `__init__.py` file and
introspection reports keywords.  Short-circuit: no oracle call (hence no
`DataError`) when the initializer is absent. -/
def is_module_library (oracle : Oracle) (p : Path) (cs : Children) : Except Unit Bool :=
  if cs.hasInitPy then oracle p else .ok false

/-- `is_resource_file`: reserved initializer names and unrecognized
extensions are rejected before the file is opened; then the header scan
decides.  Opening a directory raises an (uncaught) `IsADirectoryError`,
modelled as `.error ()`. -/
def is_resource_file (name : String) (e : Entry) : Except Unit Bool :=
  if INIT_FILES.contains name || !(EXTENSIONS.contains (suffix name)) then .ok false
  else
    match e with
    | .file bytes => .ok (scanContent bytes)
    | .dir _ => .error ()

/-- `is_library_file`: a `.py` script that is not `__init__.py` and whose
introspection reports keywords.  Short-circuit order as in the source. -/
def is_library_file (oracle : Oracle) (p : Path) : Except Unit Bool :=
  if suffix (pname p) = ".py" then
    if pname p = "__init__.py" then .ok false else oracle p
  else .ok false

/-- `is_keyword_file` on a regular file: library file or resource file, with
Python `or` short-circuit (a `DataError` from the library check propagates
before the resource check runs). -/
def is_keyword_file (oracle : Oracle) (p : Path) (bytes : List Nat) : Except Unit Bool :=
  match is_library_file oracle p with
  | .error e => .error e
  | .ok true => .ok true
  | .ok false => is_resource_file (pname p) (.file bytes)

mutual
/-- Size measure for termination of the traversal loop. -/
def Entry.size : Entry → Nat
  | .file _ => 1
  | .dir cs => 1 + cs.size
def Children.size : Children → Nat
  | .nil => 0
  | .cons _ e rest => e.size + rest.size
end

/-- Total entry size carried by a work queue. -/
def qSize : List (Path × Entry) → Nat
  | [] => 0
  | (_, e) :: rest => e.size + qSize rest

theorem Entry.size_pos : (e : Entry) → 0 < e.size
  | .file _ => by simp [Entry.size]
  | .dir _ => by simp [Entry.size]

theorem qSize_append (a b : List (Path × Entry)) : qSize (a ++ b) = qSize a + qSize b := by
  induction a with
  | nil => simp [qSize]
  | cons hd tl ih => cases hd with | _ p e => simp [qSize, ih]; omega

theorem qSize_childItems (p : Path) : (cs : Children) → qSize (childItems p cs) = cs.size
  | .nil => rfl
  | .cons n e rest => by
    simp [childItems, qSize, Children.size, qSize_childItems p rest]

theorem qSize_reverse (l : List (Path × Entry)) : qSize l.reverse = qSize l := by
  induction l with
  | nil => rfl
  | cons hd tl ih => cases hd with | _ p e => simp [qSize, qSize_append, ih]; omega

/-- The traversal loop of `find`, FIFO version (`stack.pop(0)`, children
appended at the end).  `acc` is the accumulated `paths` set, kept as a list
of recorded paths; deduplication happens at the `sorted(set)` boundary.
`DataError` from introspection is caught and the loop continues; the
`IsADirectoryError` that the buggy glob condition can raise is not caught
and aborts the run (`.error ()`). -/
def findAux (ignore : List Path) (oracle : Oracle) :
    List (Path × Entry) → List Path → Except Unit (List Path)
  | [], acc => .ok acc
  | (p, e) :: rest, acc =>
    if should_ignore ignore p then findAux ignore oracle rest acc
    else
      match e with
      | .dir cs =>
        match is_module_library oracle p cs with
        | .error _ => findAux ignore oracle rest acc
        | .ok true =>
          let g := descendants p (.dir cs)
          if g.isEmpty then findAux ignore oracle rest (acc ++ [p])
          else
            match is_resource_file (pname p) (.dir cs) with
            | .error _ => .error ()
            | .ok true => findAux ignore oracle rest (acc ++ p :: g)
            | .ok false => findAux ignore oracle rest (acc ++ [p])
        | .ok false => findAux ignore oracle (rest ++ childItems p cs) acc
      | .file bytes =>
        match is_keyword_file oracle p bytes with
        | .error _ => findAux ignore oracle rest acc
        | .ok true => findAux ignore oracle rest (acc ++ [p])
        | .ok false => findAux ignore oracle rest acc
termination_by q _ => qSize q
decreasing_by
  all_goals simp [qSize, qSize_append, qSize_childItems, Entry.size]
  all_goals first
    | omega
    | (have hsz := Entry.size_pos e; omega)

/-- Strict lexicographic comparison of character lists by code point
(Python's `str` comparison). -/
def charListLt : List Char → List Char → Bool
  | [], [] => false
  | [], _ :: _ => true
  | _ :: _, [] => false
  | a :: as, b :: bs => if a < b then true else if b < a then false else charListLt as bs

/-- Strict string comparison by code points. -/
def strLtB (a b : String) : Bool := charListLt a.data b.data

/-- Boolean comparison realizing pathlib path ordering: componentwise
lexicographic over the string order of the parts (CPython compares
`_parts_normcase` tuples). -/
def pathLeB : Path → Path → Bool
  | [], _ => true
  | _ :: _, [] => false
  | a :: as, b :: bs => if strLtB a b then true else if strLtB b a then false else pathLeB as bs

/-- The path order as a relation. -/
def PathLe (a b : Path) : Prop := pathLeB a b = true

instance : DecidableRel PathLe := fun a b => inferInstanceAs (Decidable (pathLeB a b = true))

theorem charListLt_cons (a b : Char) (as bs : List Char) :
    charListLt (a :: as) (b :: bs) =
      if a < b then true else if b < a then false else charListLt as bs := rfl

theorem charListLt_asymm : ∀ a b, charListLt a b = true → charListLt b a = false
  | [], [] => by simp [charListLt]
  | [], _ :: _ => by simp [charListLt]
  | _ :: _, [] => by simp [charListLt]
  | a :: as, b :: bs => by
    intro h
    rcases lt_trichotomy a b with hab | hab | hab
    · simp [charListLt_cons, hab, asymm hab]
    · subst hab
      simp only [charListLt_cons, lt_irrefl, if_false] at h ⊢
      exact charListLt_asymm as bs h
    · simp [charListLt_cons, hab, asymm hab] at h

theorem charListLt_conn : ∀ a b, charListLt a b = false → charListLt b a = false → a = b
  | [], [] => by simp
  | [], _ :: _ => by simp [charListLt]
  | _ :: _, [] => by simp [charListLt]
  | a :: as, b :: bs => by
    intro h1 h2
    rcases lt_trichotomy a b with hab | hab | hab
    · simp [charListLt_cons, hab] at h1
    · subst hab
      simp only [charListLt_cons, lt_irrefl, if_false] at h1 h2
      rw [charListLt_conn as bs h1 h2]
    · simp [charListLt_cons, hab] at h2

theorem charListLt_trans : ∀ a b c, charListLt a b = true → charListLt b c = true →
    charListLt a c = true
  | _, [], [] => by simp [charListLt]
  | _, _ :: _, [] => by simp [charListLt]
  | [], [], _ :: _ => by simp [charListLt]
  | [], _ :: _, _ :: _ => by simp [charListLt]
  | _ :: _, [], _ :: _ => by simp [charListLt]
  | a :: as, b :: bs, c :: cs => by
    intro h1 h2
    rcases lt_trichotomy a b with hab | hab | hab
    · rcases lt_trichotomy b c with hbc | hbc | hbc
      · simp [charListLt_cons, hab.trans hbc]
      · subst hbc
        simp [charListLt_cons, hab]
      · simp [charListLt_cons, hbc, asymm hbc] at h2
    · subst hab
      rcases lt_trichotomy a c with hac | hac | hac
      · simp [charListLt_cons, hac]
      · subst hac
        simp only [charListLt_cons, lt_irrefl, if_false] at h1 h2 ⊢
        exact charListLt_trans as bs cs h1 h2
      · simp [charListLt_cons, hac, asymm hac] at h2
    · simp [charListLt_cons, hab, asymm hab] at h1

theorem strLtB_asymm {a b : String} (h : strLtB a b = true) : strLtB b a = false :=
  charListLt_asymm _ _ h

theorem strLtB_conn {a b : String} (h : strLtB a b = false) (h' : strLtB b a = false) :
    a = b := by
  cases a with | _ da => cases b with | _ db =>
  exact congrArg String.mk (charListLt_conn da db h h')

theorem strLtB_trans {a b c : String} (h : strLtB a b = true) (h' : strLtB b c = true) :
    strLtB a c = true :=
  charListLt_trans _ _ _ h h'

theorem pathLeB_cons (a b : String) (as bs : Path) :
    pathLeB (a :: as) (b :: bs) =
      if strLtB a b then true else if strLtB b a then false else pathLeB as bs := rfl

theorem pathLeB_total : ∀ a b : Path, pathLeB a b = true ∨ pathLeB b a = true
  | [], _ => .inl rfl
  | _ :: _, [] => .inr rfl
  | a :: as, b :: bs => by
    cases hab : strLtB a b
    · cases hba : strLtB b a
      · have heq : a = b := strLtB_conn hab hba
        subst heq
        simpa [pathLeB_cons, hab] using pathLeB_total as bs
      · right
        simp [pathLeB_cons, hba]
    · left
      simp [pathLeB_cons, hab]

theorem pathLeB_trans : ∀ a b c : Path, pathLeB a b = true → pathLeB b c = true →
    pathLeB a c = true
  | [], _, _ => by simp [pathLeB]
  | _ :: _, [], _ => by simp [pathLeB]
  | _ :: _, _ :: _, [] => by simp [pathLeB]
  | a :: as, b :: bs, c :: cs => by
    intro h1 h2
    cases hab : strLtB a b
    · cases hba : strLtB b a
      · have heq : a = b := strLtB_conn hab hba
        subst heq
        simp only [pathLeB_cons, hab, Bool.false_eq_true, if_false] at h1 h2 ⊢
        cases hac : strLtB a c
        · simp only [hac, Bool.false_eq_true, if_false] at h2 ⊢
          cases hca : strLtB c a
          · simp only [hca, Bool.false_eq_true, if_false] at h2 ⊢
            exact pathLeB_trans as bs cs h1 h2
          · simp [hca] at h2
        · simp [hac]
      · simp [pathLeB_cons, hab, hba] at h1
    · cases hbc : strLtB b c
      · cases hcb : strLtB c b
        · have heq : b = c := strLtB_conn hbc hcb
          subst heq
          simp [pathLeB_cons, hab]
        · simp [pathLeB_cons, hbc, hcb] at h2
      · simp [pathLeB_cons, strLtB_trans hab hbc]

theorem pathLeB_antisymm : ∀ a b : Path, pathLeB a b = true → pathLeB b a = true → a = b
  | [], [] => by simp
  | [], _ :: _ => by simp [pathLeB]
  | _ :: _, [] => by simp [pathLeB]
  | a :: as, b :: bs => by
    intro h1 h2
    cases hab : strLtB a b
    · cases hba : strLtB b a
      · have heq : a = b := strLtB_conn hab hba
        subst heq
        simp only [pathLeB_cons, hab, Bool.false_eq_true, if_false] at h1 h2
        rw [pathLeB_antisymm as bs h1 h2]
      · simp [pathLeB_cons, hab, hba] at h1
    · simp [pathLeB_cons, hab, strLtB_asymm hab] at h2

instance : IsTotal Path PathLe := ⟨pathLeB_total⟩

instance : IsTrans Path PathLe := ⟨pathLeB_trans⟩

instance : IsAntisymm Path PathLe := ⟨pathLeB_antisymm⟩

/-- `sorted(paths)` on the `set` of recorded paths: deduplicate and sort by
the path order. -/
def sortedSet (l : List Path) : List Path := List.insertionSort PathLe l.dedup

/-- `find` up to (but not including) stringification: the sorted set of
recorded paths. -/
def findPaths (ignore : List Path) (oracle : Oracle) (roots : List (Path × Entry)) :
    Except Unit (List Path) :=
  (findAux ignore oracle roots []).map sortedSet

/-- `LibraryFinder.find`: run the traversal on the given roots and return
`[str(path) for path in sorted(paths)]`. -/
def find (ignore : List Path) (oracle : Oracle) (roots : List (Path × Entry)) :
    Except Unit (List String) :=
  (findPaths ignore oracle roots).map (List.map pathStr)

/-- The traversal loop with a stack in place of the FIFO queue
(`stack.pop()`: take the most recently appended element).  The stack is
represented with its top at the head, so a pop is head-removal and appending
children puts them, last child on top, in front of the remaining stack. -/
def findAuxR (ignore : List Path) (oracle : Oracle) :
    List (Path × Entry) → List Path → Except Unit (List Path)
  | [], acc => .ok acc
  | (p, e) :: rest, acc =>
    if should_ignore ignore p then findAuxR ignore oracle rest acc
    else
      match e with
      | .dir cs =>
        match is_module_library oracle p cs with
        | .error _ => findAuxR ignore oracle rest acc
        | .ok true =>
          let g := descendants p (.dir cs)
          if g.isEmpty then findAuxR ignore oracle rest (acc ++ [p])
          else
            match is_resource_file (pname p) (.dir cs) with
            | .error _ => .error ()
            | .ok true => findAuxR ignore oracle rest (acc ++ p :: g)
            | .ok false => findAuxR ignore oracle rest (acc ++ [p])
        | .ok false => findAuxR ignore oracle ((childItems p cs).reverse ++ rest) acc
      | .file bytes =>
        match is_keyword_file oracle p bytes with
        | .error _ => findAuxR ignore oracle rest acc
        | .ok true => findAuxR ignore oracle rest (acc ++ [p])
        | .ok false => findAuxR ignore oracle rest acc
termination_by q _ => qSize q
decreasing_by
  all_goals simp [qSize, qSize_append, qSize_reverse, qSize_childItems, Entry.size]
  all_goals first
    | omega
    | (have hsz := Entry.size_pos e; omega)

/-- The depth-first variant of `find`: same roots, work list used as a stack
popped from the back.  Reversing the roots puts the back of the Python list
at our head. -/
def findD (ignore : List Path) (oracle : Oracle) (roots : List (Path × Entry)) :
    Except Unit (List String) :=
  (findAuxR ignore oracle roots.reverse []).map (fun l => (sortedSet l).map pathStr)

/-- Sequencing of recorded-path computations: both must succeed. -/
def eappend (a b : Except Unit (List Path)) : Except Unit (List Path) :=
  match a, b with
  | .ok x, .ok y => .ok (x ++ y)
  | .error e, _ => .error e
  | .ok _, .error e => .error e

mutual
/-- Reference semantics: the paths `find` records for a single candidate,
computed by structural recursion on the entry (so it evaluates by `decide`).
Mirrors the body of the traversal loop case by case. -/
def collect (ignore : List Path) (oracle : Oracle) (p : Path) : Entry → Except Unit (List Path)
  | .file bytes =>
    if should_ignore ignore p then .ok []
    else
      match is_keyword_file oracle p bytes with
      | .error _ => .ok []
      | .ok true => .ok [p]
      | .ok false => .ok []
  | .dir cs =>
    if should_ignore ignore p then .ok []
    else
      match is_module_library oracle p cs with
      | .error _ => .ok []
      | .ok true =>
        let g := descendants p (.dir cs)
        if g.isEmpty then .ok [p]
        else
          match is_resource_file (pname p) (.dir cs) with
          | .error _ => .error ()
          | .ok true => .ok (p :: g)
          | .ok false => .ok [p]
      | .ok false => collectChildren ignore oracle p cs
def collectChildren (ignore : List Path) (oracle : Oracle) (p : Path) :
    Children → Except Unit (List Path)
  | .nil => .ok []
  | .cons n e rest =>
    eappend (collect ignore oracle (p ++ [n]) e) (collectChildren ignore oracle p rest)
end

/-- Reference semantics over a whole work list. -/
def collectQ (ignore : List Path) (oracle : Oracle) :
    List (Path × Entry) → Except Unit (List Path)
  | [] => .ok []
  | (p, e) :: rest =>
    eappend (collect ignore oracle p e) (collectQ ignore oracle rest)

/-- Order-free form of `find`: record via `collect`, then sort the set. -/
def findStruct (ignore : List Path) (oracle : Oracle) (roots : List (Path × Entry)) :
    Except Unit (List String) :=
  (collectQ ignore oracle roots).map (fun l => (sortedSet l).map pathStr)

/-- Forget the order in which paths were recorded. -/
def toM (a : Except Unit (List Path)) : Except Unit (Multiset Path) :=
  a.map (fun l => (l : Multiset Path))

/-- `eappend` on multisets of recorded paths. -/
def eadd (a b : Except Unit (Multiset Path)) : Except Unit (Multiset Path) :=
  match a, b with
  | .ok x, .ok y => .ok (x + y)
  | .error e, _ => .error e
  | .ok _, .error e => .error e

theorem eadd_comm (a b : Except Unit (Multiset Path)) : eadd a b = eadd b a := by
  cases a with
  | error u => cases b with
    | error v => cases u; cases v; rfl
    | ok y => rfl
  | ok x => cases b with
    | error v => rfl
    | ok y => simp [eadd, add_comm]

theorem eadd_ok_ok (x y : Multiset Path) (c : Except Unit (Multiset Path)) :
    eadd (.ok x) (eadd (.ok y) c) = eadd (.ok (x + y)) c := by
  cases c <;> simp [eadd, add_assoc]

theorem eadd_zero_left (a : Except Unit (Multiset Path)) : eadd (.ok 0) a = a := by
  cases a <;> simp [eadd]

theorem toM_eappend (a b : Except Unit (List Path)) :
    toM (eappend a b) = eadd (toM a) (toM b) := by
  cases a <;> cases b <;> simp [toM, eappend, eadd, Except.map, Multiset.coe_add]

theorem eappend_assoc (a b c : Except Unit (List Path)) :
    eappend (eappend a b) c = eappend a (eappend b c) := by
  cases a <;> cases b <;> cases c <;> simp [eappend]

theorem collectQ_append (ignore : List Path) (oracle : Oracle)
    (a b : List (Path × Entry)) :
    collectQ ignore oracle (a ++ b) =
      eappend (collectQ ignore oracle a) (collectQ ignore oracle b) := by
  induction a with
  | nil =>
    cases h : collectQ ignore oracle b <;> simp [collectQ, eappend, h]
  | cons hd tl ih =>
    cases hd with | _ p e =>
    simp [collectQ, ih, eappend_assoc]

theorem collectQ_childItems (ignore : List Path) (oracle : Oracle) (p : Path) :
    ∀ cs, collectQ ignore oracle (childItems p cs) = collectChildren ignore oracle p cs
  | .nil => rfl
  | .cons n e rest => by
    simp [childItems, collectQ, collectChildren, collectQ_childItems ignore oracle p rest]

theorem toM_ok (l : List Path) : toM (.ok l) = .ok (l : Multiset Path) := rfl

theorem toM_error (e : Unit) : toM (.error e) = .error e := rfl

theorem eadd_error_left (e : Unit) (x : Except Unit (Multiset Path)) :
    eadd (.error e) x = .error e := by
  cases x <;> rfl

/-- The FIFO traversal records, up to order and modulo the accumulator, the
same multiset of paths as the structural reference semantics, and fails
exactly when it does. -/
theorem findAux_toM (ignore : List Path) (oracle : Oracle) :
    ∀ q acc, toM (findAux ignore oracle q acc) =
      eadd (.ok (acc : Multiset Path)) (toM (collectQ ignore oracle q)) := by
  intro q acc
  induction q, acc using findAux.induct ignore oracle with
  | case1 acc =>
    simp [findAux.eq_1, collectQ, toM_ok, eadd, Multiset.coe_nil]
  | case2 p e rest acc hig ih =>
    cases e with
    | file bytes =>
      simp only [findAux.eq_3, if_pos hig, collectQ, collect, toM_eappend, toM_ok,
        Multiset.coe_nil, eadd_zero_left, ih]
    | dir cs =>
      simp only [findAux.eq_2, if_pos hig, collectQ, collect, toM_eappend, toM_ok,
        Multiset.coe_nil, eadd_zero_left, ih]
  | case3 p rest acc hig cs e hm ih =>
    simp only [findAux.eq_2, if_neg hig, hm, collectQ, collect, toM_eappend, toM_ok,
      Multiset.coe_nil, eadd_zero_left, ih]
  | case4 p rest acc hig cs hm g hge ih =>
    simp only [findAux.eq_2, if_neg hig, hm, hge, if_true, collectQ, collect, toM_eappend,
      toM_ok, ih, eadd_ok_ok, Multiset.coe_add]
  | case5 p rest acc hig cs hm g hge e hr =>
    simp only [findAux.eq_2, if_neg hig, hm, hge, hr, collectQ, collect, toM_eappend,
      toM_ok, toM_error, eadd_error_left, if_false, Bool.false_eq_true]
    rfl
  | case6 p rest acc hig cs hm g hge hr ih =>
    simp only [findAux.eq_2, if_neg hig, hm, hge, hr, collectQ, collect, toM_eappend,
      toM_ok, ih, eadd_ok_ok, Multiset.coe_add, if_false, Bool.false_eq_true]
  | case7 p rest acc hig cs hm g hge hr ih =>
    simp only [findAux.eq_2, if_neg hig, hm, hge, hr, collectQ, collect, toM_eappend,
      toM_ok, ih, eadd_ok_ok, Multiset.coe_add, if_false, Bool.false_eq_true]
  | case8 p rest acc hig cs hm ih =>
    rw [findAux.eq_2, if_neg hig, hm, ih, collectQ_append, toM_eappend, collectQ_childItems]
    simp only [collectQ, collect, if_neg hig, hm, toM_eappend]
    exact congrArg _ (eadd_comm _ _)
  | case9 p rest acc hig bytes e hk ih =>
    simp only [findAux.eq_3, if_neg hig, hk, collectQ, collect, toM_eappend, toM_ok,
      Multiset.coe_nil, eadd_zero_left, ih]
  | case10 p rest acc hig bytes hk ih =>
    simp only [findAux.eq_3, if_neg hig, hk, collectQ, collect, toM_eappend, toM_ok,
      ih, eadd_ok_ok, Multiset.coe_add]
  | case11 p rest acc hig bytes hk ih =>
    simp only [findAux.eq_3, if_neg hig, hk, collectQ, collect, toM_eappend, toM_ok,
      Multiset.coe_nil, eadd_zero_left, ih]

theorem eadd_zero_right (a : Except Unit (Multiset Path)) : eadd a (.ok 0) = a := by
  cases a <;> simp [eadd]

/-- Reversing the work list does not change the recorded multiset. -/
theorem toM_collectQ_reverse (ignore : List Path) (oracle : Oracle) (q : List (Path × Entry)) :
    toM (collectQ ignore oracle q.reverse) = toM (collectQ ignore oracle q) := by
  induction q with
  | nil => rfl
  | cons hd tl ih =>
    cases hd with | _ p e =>
    rw [List.reverse_cons, collectQ_append, toM_eappend, ih]
    simp only [collectQ, toM_eappend, toM_ok, Multiset.coe_nil, eadd_zero_right]
    exact eadd_comm _ _

/-- The stack traversal also records the multiset of the reference
semantics. -/
theorem findAuxR_toM (ignore : List Path) (oracle : Oracle) :
    ∀ q acc, toM (findAuxR ignore oracle q acc) =
      eadd (.ok (acc : Multiset Path)) (toM (collectQ ignore oracle q)) := by
  intro q acc
  induction q, acc using findAuxR.induct ignore oracle with
  | case1 acc =>
    simp [findAuxR.eq_1, collectQ, toM_ok, eadd, Multiset.coe_nil]
  | case2 p e rest acc hig ih =>
    cases e with
    | file bytes =>
      simp only [findAuxR.eq_3, if_pos hig, collectQ, collect, toM_eappend, toM_ok,
        Multiset.coe_nil, eadd_zero_left, ih]
    | dir cs =>
      simp only [findAuxR.eq_2, if_pos hig, collectQ, collect, toM_eappend, toM_ok,
        Multiset.coe_nil, eadd_zero_left, ih]
  | case3 p rest acc hig cs e hm ih =>
    simp only [findAuxR.eq_2, if_neg hig, hm, collectQ, collect, toM_eappend, toM_ok,
      Multiset.coe_nil, eadd_zero_left, ih]
  | case4 p rest acc hig cs hm g hge ih =>
    simp only [findAuxR.eq_2, if_neg hig, hm, hge, if_true, collectQ, collect, toM_eappend,
      toM_ok, ih, eadd_ok_ok, Multiset.coe_add]
  | case5 p rest acc hig cs hm g hge e hr =>
    simp only [findAuxR.eq_2, if_neg hig, hm, hge, hr, collectQ, collect, toM_eappend,
      toM_ok, toM_error, eadd_error_left, if_false, Bool.false_eq_true]
    rfl
  | case6 p rest acc hig cs hm g hge hr ih =>
    simp only [findAuxR.eq_2, if_neg hig, hm, hge, hr, collectQ, collect, toM_eappend,
      toM_ok, ih, eadd_ok_ok, Multiset.coe_add, if_false, Bool.false_eq_true]
  | case7 p rest acc hig cs hm g hge hr ih =>
    simp only [findAuxR.eq_2, if_neg hig, hm, hge, hr, collectQ, collect, toM_eappend,
      toM_ok, ih, eadd_ok_ok, Multiset.coe_add, if_false, Bool.false_eq_true]
  | case8 p rest acc hig cs hm ih =>
    rw [findAuxR.eq_2, if_neg hig, hm, ih, collectQ_append, toM_eappend,
      toM_collectQ_reverse, collectQ_childItems]
    simp only [collectQ, collect, if_neg hig, hm, toM_eappend]
  | case9 p rest acc hig bytes e hk ih =>
    simp only [findAuxR.eq_3, if_neg hig, hk, collectQ, collect, toM_eappend, toM_ok,
      Multiset.coe_nil, eadd_zero_left, ih]
  | case10 p rest acc hig bytes hk ih =>
    simp only [findAuxR.eq_3, if_neg hig, hk, collectQ, collect, toM_eappend, toM_ok,
      ih, eadd_ok_ok, Multiset.coe_add]
  | case11 p rest acc hig bytes hk ih =>
    simp only [findAuxR.eq_3, if_neg hig, hk, collectQ, collect, toM_eappend, toM_ok,
      Multiset.coe_nil, eadd_zero_left, ih]

/-- Sorting the set of recorded paths is invariant under permutation. -/
theorem sortedSet_perm {l1 l2 : List Path} (h : l1.Perm l2) : sortedSet l1 = sortedSet l2 := by
  have hp : (List.insertionSort PathLe l1.dedup).Perm (List.insertionSort PathLe l2.dedup) :=
    ((List.perm_insertionSort _ _).trans h.dedup).trans (List.perm_insertionSort _ _).symm
  exact List.eq_of_perm_of_sorted hp (List.sorted_insertionSort PathLe l1.dedup)
    (List.sorted_insertionSort PathLe l2.dedup)

/-- Runs recording the same multiset produce the same final output. -/
theorem out_congr {a b : Except Unit (List Path)} (h : toM a = toM b) :
    a.map (fun l => (sortedSet l).map pathStr) = b.map (fun l => (sortedSet l).map pathStr) := by
  cases a with
  | error u =>
    cases b with
    | error v => cases u; cases v; rfl
    | ok y => rw [toM_error, toM_ok] at h; exact Except.noConfusion h
  | ok x =>
    cases b with
    | error v => rw [toM_ok, toM_error] at h; exact Except.noConfusion h
    | ok y =>
      rw [toM_ok, toM_ok] at h
      have h2 : (x : Multiset Path) = (y : Multiset Path) := by injection h
      have hp : x.Perm y := Multiset.coe_eq_coe.mp h2
      show Except.ok ((sortedSet x).map pathStr) = Except.ok ((sortedSet y).map pathStr)
      rw [sortedSet_perm hp]

theorem map_map_sorted (a : Except Unit (List Path)) :
    (a.map sortedSet).map (List.map pathStr) = a.map (fun l => (sortedSet l).map pathStr) := by
  cases a <;> rfl

/-- `find` agrees with the structural reference semantics. -/
theorem find_eq_findStruct (ignore : List Path) (oracle : Oracle) (roots : List (Path × Entry)) :
    find ignore oracle roots = findStruct ignore oracle roots := by
  unfold find findPaths findStruct
  rw [map_map_sorted]
  apply out_congr
  rw [findAux_toM]
  exact eadd_zero_left _

/-- The glob-branch condition can never hold: `is_resource_file` applied to
a directory is `False` (extension rejected) or raises. -/
theorem is_resource_file_dir_ne_true (name : String) (cs : Children) :
    is_resource_file name (.dir cs) ≠ .ok true := by
  unfold is_resource_file
  split <;> simp

theorem childItems_mem_path (p : Path) :
    ∀ cs, ∀ item ∈ childItems p cs, ∃ n, item.1 = p ++ [n]
  | .nil => by intro item h; simp [childItems] at h
  | .cons n e rest => by
    intro item h
    simp only [childItems, List.mem_cons] at h
    rcases h with h | h
    · exact ⟨n, by rw [h]⟩
    · exact childItems_mem_path p rest item h

theorem prefix_of_prefix_snoc {p q : Path} {n : String} (h : p <+: q ++ [n])
    (hne : p ≠ q ++ [n]) : p <+: q := by
  have hlen : p.length ≤ q.length := by
    have h1 := h.length_le
    simp at h1
    rcases Nat.lt_or_ge p.length (q.length + 1) with h2 | h2
    · omega
    · exact absurd (h.eq_of_length (by simp; omega)) hne
  exact List.prefix_of_prefix_length_le h (List.prefix_append q [n]) hlen

/-- Ignore invariant: fix an ignored path `p`.  If no queued item lies
strictly below `p` and nothing accumulated lies at or below `p`, then no
recorded path lies at or below `p`. -/
theorem findAux_ignored_invariant (ignore : List Path) (oracle : Oracle) (p : Path)
    (hp : should_ignore ignore p = true) :
    ∀ q acc, (∀ item ∈ q, ¬(p <+: item.1 ∧ p ≠ item.1)) →
      (∀ x ∈ acc, ¬ p <+: x) →
      ∀ l, findAux ignore oracle q acc = .ok l → ∀ x ∈ l, ¬ p <+: x := by
  intro q acc
  induction q, acc using findAux.induct ignore oracle with
  | case1 acc =>
    intro _ hacc l hl
    rw [findAux.eq_1] at hl
    injection hl with h
    subst h
    exact hacc
  | case2 p1 e rest acc hig ih =>
    intro hq hacc l hl
    cases e with
    | file bytes =>
      rw [findAux.eq_3, if_pos hig] at hl
      exact ih (fun item hi => hq item (List.mem_cons_of_mem _ hi)) hacc l hl
    | dir cs =>
      rw [findAux.eq_2, if_pos hig] at hl
      exact ih (fun item hi => hq item (List.mem_cons_of_mem _ hi)) hacc l hl
  | case3 p1 rest acc hig cs e hm ih =>
    intro hq hacc l hl
    simp only [findAux.eq_2, if_neg hig, hm] at hl
    exact ih (fun item hi => hq item (List.mem_cons_of_mem _ hi)) hacc l hl
  | case4 p1 rest acc hig cs hm g hge ih =>
    intro hq hacc l hl
    simp only [findAux.eq_2, if_neg hig, hm, hge, if_true] at hl
    refine ih (fun item hi => hq item (List.mem_cons_of_mem _ hi)) ?_ l hl
    intro x hx
    rcases List.mem_append.mp hx with hx | hx
    · exact hacc x hx
    · rw [List.mem_singleton.mp hx]
      intro hpre
      by_cases he : p = p1
      · subst he
        exact hig hp
      · exact hq (p1, Entry.dir cs) (List.mem_cons_self _ _) ⟨hpre, he⟩
  | case5 p1 rest acc hig cs hm g hge e hr =>
    intro hq hacc l hl
    simp only [findAux.eq_2, if_neg hig, hm, hge, hr, if_false, Bool.false_eq_true] at hl
    exact Except.noConfusion hl
  | case6 p1 rest acc hig cs hm g hge hr ih =>
    intro hq hacc l hl
    exact absurd hr (is_resource_file_dir_ne_true _ _)
  | case7 p1 rest acc hig cs hm g hge hr ih =>
    intro hq hacc l hl
    simp only [findAux.eq_2, if_neg hig, hm, hge, hr, if_false, Bool.false_eq_true] at hl
    refine ih (fun item hi => hq item (List.mem_cons_of_mem _ hi)) ?_ l hl
    intro x hx
    rcases List.mem_append.mp hx with hx | hx
    · exact hacc x hx
    · rw [List.mem_singleton.mp hx]
      intro hpre
      by_cases he : p = p1
      · subst he
        exact hig hp
      · exact hq (p1, Entry.dir cs) (List.mem_cons_self _ _) ⟨hpre, he⟩
  | case8 p1 rest acc hig cs hm ih =>
    intro hq hacc l hl
    simp only [findAux.eq_2, if_neg hig, hm] at hl
    refine ih ?_ hacc l hl
    intro item hi
    rcases List.mem_append.mp hi with hi | hi
    · exact hq item (List.mem_cons_of_mem _ hi)
    · obtain ⟨n, hn⟩ := childItems_mem_path p1 cs item hi
      rw [hn]
      rintro ⟨hpre, hne⟩
      have hpre1 : p <+: p1 := prefix_of_prefix_snoc hpre hne
      by_cases he : p = p1
      · subst he
        exact hig hp
      · exact hq (p1, Entry.dir cs) (List.mem_cons_self _ _) ⟨hpre1, he⟩
  | case9 p1 rest acc hig bytes e hk ih =>
    intro hq hacc l hl
    simp only [findAux.eq_3, if_neg hig, hk] at hl
    exact ih (fun item hi => hq item (List.mem_cons_of_mem _ hi)) hacc l hl
  | case10 p1 rest acc hig bytes hk ih =>
    intro hq hacc l hl
    simp only [findAux.eq_3, if_neg hig, hk] at hl
    refine ih (fun item hi => hq item (List.mem_cons_of_mem _ hi)) ?_ l hl
    intro x hx
    rcases List.mem_append.mp hx with hx | hx
    · exact hacc x hx
    · rw [List.mem_singleton.mp hx]
      intro hpre
      by_cases he : p = p1
      · subst he
        exact hig hp
      · exact hq (p1, Entry.file bytes) (List.mem_cons_self _ _) ⟨hpre, he⟩
  | case11 p1 rest acc hig bytes hk ih =>
    intro hq hacc l hl
    simp only [findAux.eq_3, if_neg hig, hk] at hl
    exact ih (fun item hi => hq item (List.mem_cons_of_mem _ hi)) hacc l hl

theorem mem_sortedSet {x : Path} {l : List Path} : x ∈ sortedSet l ↔ x ∈ l := by
  unfold sortedSet
  rw [List.mem_insertionSort, List.mem_dedup]

/-- Runs recording the same multiset also agree before stringification. -/
theorem out_congr_paths {a b : Except Unit (List Path)} (h : toM a = toM b) :
    a.map sortedSet = b.map sortedSet := by
  cases a with
  | error u =>
    cases b with
    | error v => cases u; cases v; rfl
    | ok y => rw [toM_error, toM_ok] at h; exact Except.noConfusion h
  | ok x =>
    cases b with
    | error v => rw [toM_ok, toM_error] at h; exact Except.noConfusion h
    | ok y =>
      rw [toM_ok, toM_ok] at h
      have h2 : (x : Multiset Path) = (y : Multiset Path) := by injection h
      have hp : x.Perm y := Multiset.coe_eq_coe.mp h2
      show Except.ok (sortedSet x) = Except.ok (sortedSet y)
      rw [sortedSet_perm hp]

/-- `findPaths` agrees with the structural reference semantics. -/
theorem findPaths_eq (ignore : List Path) (oracle : Oracle) (roots : List (Path × Entry)) :
    findPaths ignore oracle roots = (collectQ ignore oracle roots).map sortedSet := by
  unfold findPaths
  apply out_congr_paths
  rw [findAux_toM]
  exact eadd_zero_left _

/-- The loop body raises `DataError` on this candidate: translated from the
two `has_keywords` call sites (`is_module_library` on a directory holding an
initializer, `is_library_file` on a non-initializer `.py` file). -/
def raisesDataError (ignore : List Path) (oracle : Oracle) (p : Path) (e : Entry) : Bool :=
  !should_ignore ignore p &&
    (match e with
     | .dir cs => cs.hasInitPy
     | .file _ => suffix (pname p) = ".py" && pname p != "__init__.py") &&
    (match oracle p with | .error _ => true | .ok _ => false)

/-- A candidate whose classification raises `DataError` is skipped: the loop
result is that of the remaining queue, whatever was accumulated. -/
theorem findAux_skip_dataError (ignore : List Path) (oracle : Oracle) (p : Path) (e : Entry)
    (rest : List (Path × Entry)) (h : raisesDataError ignore oracle p e = true) :
    ∀ acc, findAux ignore oracle ((p, e) :: rest) acc = findAux ignore oracle rest acc := by
  intro acc
  unfold raisesDataError at h
  cases e with
  | dir cs =>
    simp only [Bool.and_eq_true, Bool.not_eq_true'] at h
    obtain ⟨⟨hig, hinit⟩, ho⟩ := h
    cases horc : oracle p with
    | ok b => rw [horc] at ho; exact absurd ho (by simp)
    | error u =>
      have hm : is_module_library oracle p cs = .error u := by
        unfold is_module_library
        rw [if_pos hinit, horc]
      rw [findAux.eq_2, if_neg (by simp [hig])]
      simp only [hm]
  | file bytes =>
    simp only [Bool.and_eq_true, Bool.not_eq_true'] at h
    obtain ⟨⟨hig, hsuf, hne⟩, ho⟩ := h
    have hsuf1 : suffix (pname p) = ".py" := by simpa using hsuf
    have hne1 : pname p ≠ "__init__.py" := by simpa using hne
    cases horc : oracle p with
    | ok b => rw [horc] at ho; exact absurd ho (by simp)
    | error u =>
      have hk : is_keyword_file oracle p bytes = .error u := by
        unfold is_keyword_file is_library_file
        rw [if_pos hsuf1, if_neg hne1, horc]
      rw [findAux.eq_3, if_neg (by simp [hig])]
      simp only [hk]

/-- One lowercase hex digit. -/
def hexDigit (n : Nat) : Char := if n < 10 then Char.ofNat (48 + n) else Char.ofNat (87 + n)

/-- Four-digit hex rendering used by `\uXXXX` escapes. -/
def hex4 (n : Nat) : List Char :=
  [hexDigit (n / 4096 % 16), hexDigit (n / 256 % 16), hexDigit (n / 16 % 16), hexDigit (n % 16)]

/-- Escaping of one character by `json.dumps` (default `ensure_ascii`):
named escapes, `\u00XX` for the other control characters, printable ASCII
verbatim,
`\uXXXX` (with surrogate pairs) beyond. -/
def jsonEscapeChar (c : Char) : List Char :=
  if c = '"' then ['\\', '"']
  else if c = '\\' then ['\\', '\\']
  else if c = '\n' then ['\\', 'n']
  else if c = '\t' then ['\\', 't']
  else if c = '\x0d' then ['\\', 'r']
  else if c = '\x08' then ['\\', 'b']
  else if c = '\x0c' then ['\\', 'f']
  else if c.toNat < 0x20 then '\\' :: 'u' :: hex4 c.toNat
  else if c.toNat ≤ 0x7e then [c]
  else if c.toNat < 0x10000 then '\\' :: 'u' :: hex4 c.toNat
  else
    ('\\' :: 'u' :: hex4 (0xd800 + (c.toNat - 0x10000) / 1024)) ++
      ('\\' :: 'u' :: hex4 (0xdc00 + (c.toNat - 0x10000) % 1024))

/-- A JSON string literal for `s`. -/
def jsonString (s : String) : String :=
  String.mk ('"' :: ((s.data.map jsonEscapeChar).flatten ++ ['"']))

/-- `json.dumps(libraries, indent=2)`. -/
def jsonDumps (l : List String) : String :=
  match l with
  | [] => "[]"
  | _ => "[\n  " ++ String.intercalate ",\n  " (l.map jsonString) ++ "\n]"

/-- Observable effects of the output step of `main`: which file is written
(its path and its contents) and what is printed to standard output. -/
structure MainOut where
  fileWritten : Option (String × String)
  printed : Option String
deriving DecidableEq

/-- The output step of `main`:
`output = json.dumps(libraries, indent=2)`, then
`open(output, "w").write(output)` when `--output` was given, else
`print(output)`.  Note the file opened is named by the serialized JSON
text itself, not by `args.output`. -/
def mainOutput (outputArg : Option String) (libraries : List String) : MainOut :=
  let output := jsonDumps libraries
  match outputArg with
  | some _ => { fileWritten := some (output, output), printed := none }
  | none => { fileWritten := none, printed := some output }

/-! Concrete fixtures used by the claim theorems. -/

/-- Content declaring keywords and no test cases or tasks. -/
def kwBytes : List Nat := strBytes "*** Keywords ***\nMy Keyword\n    Log    ok\n"

/-- The same keyword section with a test-case section added. -/
def taskKwBytes : List Nat := strBytes "*** Test Cases ***\nCase\n*** Keywords ***\nMy Keyword\n"

/-- Introspection that always reports keywords. -/
def oracleYes : Oracle := fun _ => .ok true

/-- Introspection that never reports keywords. -/
def oracleNo : Oracle := fun _ => .ok false

/-- Introspection that always raises `DataError`. -/
def oracleFail : Oracle := fun _ => .error ()

/-- A module library: `__init__.py` plus a resource file. -/
def libChildren : Children := .cons "__init__.py" (.file []) (.cons "res.robot" (.file kwBytes) .nil)

/-- The module-library directory entry. -/
def libDir : Entry := .dir libChildren

/-- A root holding a resource file `a.robot` and a directory `a` with a
resource file `b.robot` inside. -/
def nestedRoot : Entry :=
  .dir (.cons "a.robot" (.file kwBytes) (.cons "a" (.dir (.cons "b.robot" (.file kwBytes) .nil)) .nil))

/-- C1: the claim says that under a qualifying module library every resource
file beneath is recorded.  The code tests `is_resource_file(path)` — the
directory — instead of `file` in the glob comprehension, so nothing beneath
the module library is recorded: on a module library `lib` containing
`res.robot` (a file satisfying the resource predicate, as the second
conjunct shows), the result is `["lib"]` alone. -/
theorem C1_module_library_resource_glob_bug :
    find [] oracleYes [(["lib"], libDir)] = .ok ["lib"] ∧
    is_resource_file "res.robot" (.file kwBytes) = .ok true ∧
    ("lib/res.robot" : String) ∉ ["lib"] := by
  refine ⟨?_, rfl, by decide⟩
  rw [find_eq_findStruct]
  rfl

/-- C2: the claim says `--output` makes the JSON go to the user-supplied
file.  The code executes `open(output, "w")` where `output` is the
serialized JSON string, so the file written is named by the JSON text
itself, not `out.json`; nothing is printed in that case, and without
`--output` the JSON is printed. -/
theorem C2_output_written_to_json_named_file :
    mainOutput (some "out.json") ["lib"] =
      { fileWritten := some ("[\n  \"lib\"\n]", "[\n  \"lib\"\n]"), printed := none } ∧
    "[\n  \"lib\"\n]" ≠ "out.json" ∧
    mainOutput none ["lib"] = { fileWritten := none, printed := some "[\n  \"lib\"\n]" } :=
  ⟨rfl, by decide, rfl⟩

/-- C3 counterexample: on a root holding `a.robot` and `a/b.robot` the
result is `["r/a/b.robot", "r/a.robot"]`, yet as strings
`"r/a.robot" < "r/a/b.robot"`: the returned sequence is not sorted
ascending under plain string comparison, because pathlib sorts by path
components and `"." < "/"`. -/
theorem C3_counterexample :
    find [] oracleNo [(["r"], nestedRoot)] = .ok ["r/a/b.robot", "r/a.robot"] ∧
    ("r/a.robot" : String) < "r/a/b.robot" := by
  constructor
  · rw [find_eq_findStruct]
    rfl
  · rw [String.lt_iff_toList_lt]
    decide

/-- C3 (amended): the returned sequence has no duplicates and is sorted
ascending in pathlib path order `PathLe` — componentwise lexicographic over
the parts — which is what `sorted(paths)` computes; this can differ from
lexicographic order of the joined strings. -/
theorem C3_sorted_amended (ignore : List Path) (oracle : Oracle) (roots : List (Path × Entry))
    (l : List Path) (h : findPaths ignore oracle roots = .ok l) :
    l.Nodup ∧ l.Sorted PathLe ∧ find ignore oracle roots = .ok (l.map pathStr) := by
  unfold findPaths at h
  cases ha : findAux ignore oracle roots [] with
  | error u => rw [ha] at h; exact Except.noConfusion h
  | ok l0 =>
    rw [ha] at h
    simp only [Except.map] at h
    injection h with h
    subst h
    refine ⟨?_, List.sorted_insertionSort PathLe l0.dedup, ?_⟩
    · exact (List.perm_insertionSort PathLe l0.dedup).symm.nodup l0.nodup_dedup
    · unfold find findPaths
      rw [ha]
      rfl

/-- C3 witness: the amended theorem applied at a concrete run. -/
theorem C3_sorted_amended_witness :
    ([] : List Path).Nodup ∧ ([] : List Path).Sorted PathLe ∧
      find [] oracleNo [] = .ok (([] : List Path).map pathStr) :=
  C3_sorted_amended [] oracleNo [] [] (by rw [findPaths_eq]; rfl)

/-- C4 counterexample: with `a` in the ignore list but the file `a/b.robot`
given directly as a root, the ignored path's descendant `a/b.robot` is
classified and returned, so the claim fails as universally stated. -/
theorem C4_counterexample :
    should_ignore [["a"]] ["a"] = true ∧
    (["a"] : Path) <+: ["a", "b.robot"] ∧ (["a"] : Path) ≠ ["a", "b.robot"] ∧
    find [["a"]] oracleNo [(["a", "b.robot"], .file kwBytes)] = .ok ["a/b.robot"] := by
  refine ⟨by decide, ⟨["b.robot"], rfl⟩, by decide, ?_⟩
  rw [find_eq_findStruct]
  rfl

/-- C4 (amended): provided no root lies strictly below the ignored path `p`
(the ignore set is only consulted on paths the traversal itself reaches),
neither `p` nor any descendant of `p` occurs in the result: every returned
path fails to have `p` as a prefix. -/
theorem C4_ignored_subtree_amended (ignore : List Path) (oracle : Oracle)
    (roots : List (Path × Entry)) (p : Path) (l : List Path)
    (hp : should_ignore ignore p = true)
    (hroots : ∀ item ∈ roots, ¬(p <+: item.1 ∧ p ≠ item.1))
    (h : findPaths ignore oracle roots = .ok l) :
    ∀ x ∈ l, ¬ p <+: x := by
  unfold findPaths at h
  cases ha : findAux ignore oracle roots [] with
  | error u => rw [ha] at h; exact Except.noConfusion h
  | ok l0 =>
    rw [ha] at h
    simp only [Except.map] at h
    injection h with h
    subst h
    intro x hx
    exact findAux_ignored_invariant ignore oracle p hp roots [] hroots (by simp) l0 ha x
      (mem_sortedSet.mp hx)

/-- C4 witness: the amended theorem applied at a concrete run with ignored
path `x` and an unrelated root. -/
theorem C4_ignored_subtree_amended_witness :
    ¬ (["x"] : Path) <+: ["a.robot"] :=
  C4_ignored_subtree_amended [["x"]] oracleNo [(["a.robot"], .file kwBytes)] ["x"] [["a.robot"]]
    (by decide) (by decide) (by rw [findPaths_eq]; rfl) ["a.robot"] (by decide)

/-- C5: a file with a recognized extension and non-initializer name whose
text matches the keyword header and not the test/task header satisfies the
resource predicate; any file whose text matches the test/task header fails
it, keywords or not; and a concrete run includes the former root and
excludes the latter. -/
theorem C5_resource_predicate :
    (∀ (name : String) (bytes : List Nat),
      name ∉ INIT_FILES → suffix name ∈ EXTENSIONS →
      searchHeader kwLits (readText bytes) = true →
      searchHeader taskLits (readText bytes) = false →
      is_resource_file name (.file bytes) = .ok true) ∧
    (∀ (name : String) (bytes : List Nat),
      searchHeader taskLits (readText bytes) = true →
      is_resource_file name (.file bytes) = .ok false) ∧
    find [] oracleNo [(["res.robot"], .file kwBytes)] = .ok ["res.robot"] ∧
    find [] oracleNo [(["res.robot"], .file taskKwBytes)] = .ok [] := by
  refine ⟨?_, ?_, ?_, ?_⟩
  · intro name bytes h1 h2 h3 h4
    unfold is_resource_file
    rw [if_neg (by simp [h1, h2])]
    show Except.ok (scanContent bytes) = .ok true
    simp only [scanContent, h3, h4]
    rfl
  · intro name bytes h
    unfold is_resource_file
    by_cases hc : (INIT_FILES.contains name || !(EXTENSIONS.contains (suffix name))) = true
    · rw [if_pos hc]
    · rw [if_neg hc]
      show Except.ok (scanContent bytes) = .ok false
      simp only [scanContent, h]
      rfl
  · rw [find_eq_findStruct]
    rfl
  · rw [find_eq_findStruct]
    rfl

/-- C5 witness: the predicate parts applied at the fixture contents. -/
theorem C5_resource_predicate_witness :
    is_resource_file "res.robot" (.file kwBytes) = .ok true ∧
    is_resource_file "res.robot" (.file taskKwBytes) = .ok false :=
  ⟨C5_resource_predicate.1 "res.robot" kwBytes (by decide) (by decide) (by decide) (by decide),
   C5_resource_predicate.2.1 "res.robot" taskKwBytes (by decide)⟩

/-- C6: when classifying a candidate raises `DataError` (the oracle call
sites of the loop body, collected in `raisesDataError`), the candidate is
excluded and the loop goes on with the remaining queue: the traversal result
is exactly that of the rest of the queue, and so is the final `find`
output — the run does not abort. -/
theorem C6_dataError_skip (ignore : List Path) (oracle : Oracle) (p : Path) (e : Entry)
    (rest : List (Path × Entry)) (acc : List Path)
    (h : raisesDataError ignore oracle p e = true) :
    findAux ignore oracle ((p, e) :: rest) acc = findAux ignore oracle rest acc ∧
    find ignore oracle ((p, e) :: rest) = find ignore oracle rest := by
  have key := findAux_skip_dataError ignore oracle p e rest h
  refine ⟨key acc, ?_⟩
  unfold find findPaths
  rw [key []]

/-- C6 witness: a `.py` file whose introspection raises is skipped and its
sibling still processed. -/
theorem C6_dataError_skip_witness :
    (findAux [] oracleFail [(["bad.py"], .file []), (["ok.robot"], .file kwBytes)] [] =
      findAux [] oracleFail [(["ok.robot"], .file kwBytes)] []) ∧
    find [] oracleFail [(["bad.py"], .file []), (["ok.robot"], .file kwBytes)] =
      find [] oracleFail [(["ok.robot"], .file kwBytes)] :=
  C6_dataError_skip [] oracleFail ["bad.py"] (.file []) [(["ok.robot"], .file kwBytes)] []
    (by decide)

/-- C7: a path named `__init__.py` is never a library file, whatever the
introspection oracle would report; the `path.name != "__init__.py"`
conjunct short-circuits before `has_keywords` is consulted. -/
theorem C7_init_py_never_library (oracle : Oracle) (p : Path)
    (h : pname p = "__init__.py") : is_library_file oracle p = .ok false := by
  unfold is_library_file
  rw [h]
  rw [if_pos (by decide), if_pos rfl]

/-- C7 witness: a package initializer under any oracle. -/
theorem C7_init_py_never_library_witness :
    is_library_file oracleYes ["pkg", "__init__.py"] = .ok false :=
  C7_init_py_never_library oracleYes ["pkg", "__init__.py"] (by decide)

/-- C8: the header scan never raises a decoding error: for every byte
content the predicate returns a boolean (the read decodes permissively), and
a non-UTF-8 file — its bytes dropped by the permissive decoder — merely
fails both header patterns and is excluded. -/
theorem C8_decode_total :
    (∀ (name : String) (bytes : List Nat), ∃ b, is_resource_file name (.file bytes) = .ok b) ∧
    decodeUtf8Ignore [0xff, 0xfe] = [] ∧
    is_resource_file "x.robot" (.file [0xff, 0xfe]) = .ok false := by
  refine ⟨?_, by decide, by rfl⟩
  intro name bytes
  unfold is_resource_file
  by_cases hc : (INIT_FILES.contains name || !(EXTENSIONS.contains (suffix name))) = true
  · exact ⟨false, by rw [if_pos hc]⟩
  · exact ⟨scanContent bytes, by rw [if_neg hc]⟩

/-- C9: for every filesystem, oracle, ignore list and root list, the FIFO
traversal (`pop(0)`) and the stack traversal (pop from the back,
depth-first) return identical results — the same sorted path list, or both
the same abort. -/
theorem C9_fifo_stack_equivalence (ignore : List Path) (oracle : Oracle)
    (roots : List (Path × Entry)) :
    find ignore oracle roots = findD ignore oracle roots := by
  unfold find findPaths findD
  rw [map_map_sorted]
  apply out_congr
  rw [findAux_toM, findAuxR_toM, toM_collectQ_reverse]

/-- C10: a directory whose module-library check raises `DataError` never has
its children enqueued — the loop result is that of the remaining queue, and
as a sole root its whole subtree yields nothing — whereas a directory that
merely fails to qualify has all its direct children appended to the queue. -/
theorem C10_dir_dataError_subtree :
    (∀ (ignore : List Path) (oracle : Oracle) (p : Path) (cs : Children)
        (rest : List (Path × Entry)) (acc : List Path),
      should_ignore ignore p = false → cs.hasInitPy = true → oracle p = .error () →
      findAux ignore oracle ((p, .dir cs) :: rest) acc = findAux ignore oracle rest acc) ∧
    (∀ (ignore : List Path) (oracle : Oracle) (p : Path) (cs : Children),
      should_ignore ignore p = false → cs.hasInitPy = true → oracle p = .error () →
      find ignore oracle [(p, .dir cs)] = .ok []) ∧
    (∀ (ignore : List Path) (oracle : Oracle) (p : Path) (cs : Children)
        (rest : List (Path × Entry)) (acc : List Path),
      should_ignore ignore p = false → is_module_library oracle p cs = .ok false →
      findAux ignore oracle ((p, .dir cs) :: rest) acc =
        findAux ignore oracle (rest ++ childItems p cs) acc) := by
  have parta : ∀ (ignore : List Path) (oracle : Oracle) (p : Path) (cs : Children)
      (rest : List (Path × Entry)) (acc : List Path),
      should_ignore ignore p = false → cs.hasInitPy = true → oracle p = .error () →
      findAux ignore oracle ((p, .dir cs) :: rest) acc = findAux ignore oracle rest acc := by
    intro ignore oracle p cs rest acc hig hinit horc
    have hm : is_module_library oracle p cs = .error () := by
      unfold is_module_library
      rw [if_pos hinit, horc]
    rw [findAux.eq_2, if_neg (by simp [hig])]
    simp only [hm]
  refine ⟨parta, ?_, ?_⟩
  · intro ignore oracle p cs hig hinit horc
    unfold find findPaths
    rw [parta ignore oracle p cs [] [] hig hinit horc, findAux.eq_1]
    rfl
  · intro ignore oracle p cs rest acc hig hm
    rw [findAux.eq_2, if_neg (by simp [hig])]
    simp only [hm]

/-- C10 witness: a root directory with an initializer whose introspection
raises yields an empty result. -/
theorem C10_dir_dataError_subtree_witness :
    find [] oracleFail [(["pkg"], .dir libChildren)] = .ok [] :=
  C10_dir_dataError_subtree.2.1 [] oracleFail ["pkg"] libChildren (by decide) (by decide) rfl

end LibraryFinder
